import Mathlib

/-!
Verification of the baseline data-assimilation methods of
`dapper/da_methods/baseline.py` (Climatology, OptInterp, Var3D and the
shared sigmoid utility `fit_sigmoid`).

The numeric state is embedded over `ℚ` (exact arithmetic standing for the
float arithmetic of the source, away from overflow/rounding concerns); the
sigmoid curve itself, which involves `exp`/`log`, is embedded over `ℝ`.
The per-step diagnostic sink `stats.assess` is modelled as a list of
assessment records produced by the run; the external collaborators
(dynamical model `Dyn`, observation operator `Obs`, ticker `chrono.ticker`,
observations `yy`) are parameters of the run, exactly as in the source.
-/

namespace DapperBaseline

/-- One entry of `chrono.ticker`: step index `k`, observation index
`kObs` (`none` off observation times), absolute time `t`, step size `dt`. -/
structure TickEntry where
  k : ℕ
  kObs : Option ℕ
  t : ℚ
  dt : ℚ
deriving DecidableEq

/-- The phase tag passed to `stats.assess` (`'u'`, `'fau'`, `'f'` in the
source); the final per-step assess call passes no tag (`none` here). -/
inductive Phase
  | u
  | fau
  | f
deriving DecidableEq

/-- The parameters `(Sb, L, kb)` of a call `fit_sigmoid(Sb, L, kb)`.
The returned closure is fully determined by these three numbers (see
`SigParams.eval` / `fit_sigmoid`), so the loops carry the parameters. -/
structure SigParams where
  Sb : ℚ
  L : ℚ
  kb : ℚ
deriving DecidableEq

/-- `mean(xx, 0)`: the time-mean (climatological mean) of the truth
trajectory `xx`, an `N × M` array embedded as `Fin N → Fin M → ℚ`. -/
def meanVec {N M : ℕ} (xx : Fin N → Fin M → ℚ) : Fin M → ℚ :=
  fun i => (∑ n, xx n i) / (N : ℚ)

/-- `AC = xx - muC`: the anomalies (deviations from the time-mean). -/
def anomalies {N M : ℕ} (xx : Fin N → Fin M → ℚ) : Fin N → Fin M → ℚ :=
  fun n i => xx n i - meanVec xx i

/-- `(AC.T @ AC) / (xx.shape[0] - 1)`: the sample covariance of the truth
trajectory with Bessel's correction.  This is the explicit formula of
`OptInterp` (line `PC = (AC.T @ AC) / (xx.shape[0] - 1)`); it is also the
value of `np.cov(xx.T)` (numpy's default `ddof=1`) used by `Var3D`, and —
modelled from the spec ("sample covariance matrix estimated with Bessel's
correction"), since the class is not under `src/` — of `CovMat(AC, 'A')`
used by `Climatology`. -/
def sampleCov {N M : ℕ} (xx : Fin N → Fin M → ℚ) : Matrix (Fin M) (Fin M) ℚ :=
  Matrix.of fun i j => (∑ n, anomalies xx n i * anomalies xx n j) / ((N : ℚ) - 1)

/-- The covariance argument of a `stats.assess` call, kept in symbolic
form: either an exact rational matrix, or a matrix `C` scaled by the
sigmoid value `SM(k)` (the source expressions `2*PC*SM(k)` and `CC*SM(k)`).
`CovDiag.value` interprets it as the real matrix the sink receives. -/
inductive CovDiag (M : ℕ)
  | exact (C : Matrix (Fin M) (Fin M) ℚ)
  | scaled (C : Matrix (Fin M) (Fin M) ℚ) (sm : SigParams) (k : ℕ)
deriving DecidableEq

/-- One diagnostic record handed to the sink `stats.assess`. -/
structure Assess (M : ℕ) where
  k : ℕ
  kObs : Option ℕ
  phase : Option Phase
  mu : Fin M → ℚ
  cov : CovDiag M
deriving DecidableEq

/-- The fields of an assessment other than the covariance (step index,
observation index, phase tag, mean). -/
def Assess.core {M : ℕ} (a : Assess M) :
    ℕ × Option ℕ × Option Phase × (Fin M → ℚ) :=
  (a.k, a.kObs, a.phase, a.mu)

/-- The `Climatology` assimilator: emits `assess(0, mu=muC, Cov=PC)` and
then, for every tick, `assess(k, kObs, fau, mu=muC, Cov=PC)` with
`fau = 'u'` off observation times and `'fau'` on them.  The observations
`yy` are accepted (same signature as the source) but never read. -/
def Climatology {N M P : ℕ} (xx : Fin N → Fin M → ℚ) (yy : ℕ → Fin P → ℚ)
    (ticker : List TickEntry) : List (Assess M) :=
  let muC := meanVec xx
  let PC := sampleCov xx
  ⟨0, none, none, muC, CovDiag.exact PC⟩ ::
    ticker.map (fun e =>
      ⟨e.k, e.kObs, some (if e.kObs = none then Phase.u else Phase.fau),
        muC, CovDiag.exact PC⟩)

/-- Modelled from the spec: `mrdiv(b, A)` (robust right matrix division)
is not under `src/`; the spec asks for a pseudo-inverse-backed or
regularized solve.  In exact arithmetic it is right-multiplication by
`det⁻¹ • adjugate` (which over the field `ℚ` equals Mathlib's `A⁻¹`, and
agrees with any such solver whenever `A` is invertible). -/
def mrdiv {a b : ℕ} (Bm : Matrix (Fin a) (Fin b) ℚ) (A : Matrix (Fin b) (Fin b) ℚ) :
    Matrix (Fin a) (Fin b) ℚ :=
  Bm * ((A.det)⁻¹ • A.adjugate)

/-- `raise AssimFailedError(msg)` of the `OptInterp` setup. -/
inductive AssimFailedError
  | timeIndepH
deriving DecidableEq

/-- The collaborators and configuration consumed by one `OptInterp` run:
dynamical model `Dyn`, observation operator (`obsApply` for `Obs(x, t)`,
`HExt` for `Obs.linear(np.nan, np.nan)`, entries `none` standing for the
non-finite floats a time- or state-dependent operator produces on the
`nan` placeholder), observation noise covariance `R` (`Obs.noise.C.full`),
truth `xx`, observations `yy`, and the correlation length `L` — the value
of `estimate_corr_length(AC.ravel(order='F'))`, whose implementation is
not under `src/` and is therefore carried as a parameter. -/
structure OIConfig (N M P : ℕ) where
  Dyn : (Fin M → ℚ) → ℚ → ℚ → Fin M → ℚ
  obsApply : (Fin M → ℚ) → ℚ → Fin P → ℚ
  HExt : Matrix (Fin P) (Fin M) (Option ℚ)
  R : Matrix (Fin P) (Fin P) ℚ
  xx : Fin N → Fin M → ℚ
  yy : ℕ → Fin P → ℚ
  L : ℚ

/-- Replace the correlation length of an `OptInterp` configuration,
leaving every other field unchanged. -/
def OIConfig.setL {N M P : ℕ} (cfg : OIConfig N M P) (L : ℚ) : OIConfig N M P :=
  ⟨cfg.Dyn, cfg.obsApply, cfg.HExt, cfg.R, cfg.xx, cfg.yy, L⟩

/-- The finite matrix `H` extracted from `Obs.linear(np.nan, np.nan)`
once every entry passed the `np.isfinite` check. -/
def extractH {M P : ℕ} (HExt : Matrix (Fin P) (Fin M) (Option ℚ)) :
    Matrix (Fin P) (Fin M) ℚ :=
  Matrix.of fun i j => (HExt i j).getD 0

/-- `KG = mrdiv(PC @ H.T, H @ PC @ H.T + Obs.noise.C.full)`: the
climatological Kalman gain computed once at `OptInterp` setup. -/
def optInterpKG {N M P : ℕ} (cfg : OIConfig N M P) : Matrix (Fin M) (Fin P) ℚ :=
  let H := extractH cfg.HExt
  let PC := sampleCov cfg.xx
  mrdiv (PC * H.transpose) (H * PC * H.transpose + cfg.R)

/-- `P = (eye(Dyn.M) - KG @ H) @ PC`: the analysis covariance computed
once at `OptInterp` setup, used only for the sigmoid diagnostics. -/
def optInterpPa {N M P : ℕ} (cfg : OIConfig N M P) : Matrix (Fin M) (Fin M) ℚ :=
  (1 - optInterpKG cfg * extractH cfg.HExt) * sampleCov cfg.xx

/-- The loop state of `OptInterp`: the current mean `mu` and the current
sigmoid `SM` (by its fit parameters). -/
structure OIState (M : ℕ) where
  mu : Fin M → ℚ
  SM : SigParams
deriving DecidableEq

/-- One iteration of the `OptInterp` loop body at tick `e`, returning the
new state, the `stats.assess` records emitted during the iteration, and
the Kalman gains used by the analyses of the iteration (`[KG]` on an
observation step, `[]` otherwise):
forecast `mu = Dyn(mu, t-dt, dt)`; on an observation step assess
`(k, kObs, 'f', mu=muC, Cov=PC)`, update `mu = muC + KG@(yy[kObs] -
Obs(muC, t))`, refit `SM = fit_sigmoid(trace(P)/trace(PC), L, k)`;
finally assess `(k, kObs, mu=mu, Cov=2*PC*SM(k))`. -/
def optInterpStep {N M P : ℕ} (cfg : OIConfig N M P) (s : OIState M)
    (e : TickEntry) :
    OIState M × List (Assess M) × List (Matrix (Fin M) (Fin P) ℚ) :=
  let muC := meanVec cfg.xx
  let PC := sampleCov cfg.xx
  let KG := optInterpKG cfg
  let Pa := optInterpPa cfg
  let mu1 := cfg.Dyn s.mu (e.t - e.dt) e.dt
  match e.kObs with
  | none =>
      (⟨mu1, s.SM⟩,
       [⟨e.k, none, none, mu1, CovDiag.scaled ((2 : ℚ) • PC) s.SM e.k⟩],
       [])
  | some j =>
      let mu2 := muC + KG.mulVec (fun p => cfg.yy j p - cfg.obsApply muC e.t p)
      let SM2 : SigParams := ⟨Pa.trace / PC.trace, cfg.L, (e.k : ℚ)⟩
      (⟨mu2, SM2⟩,
       [⟨e.k, some j, some Phase.f, muC, CovDiag.exact PC⟩,
        ⟨e.k, some j, none, mu2, CovDiag.scaled ((2 : ℚ) • PC) SM2 e.k⟩],
       [KG])

/-- The `OptInterp` loop over the remaining ticker entries. -/
def optInterpLoop {N M P : ℕ} (cfg : OIConfig N M P) (s : OIState M) :
    List TickEntry →
      OIState M × List (Assess M) × List (Matrix (Fin M) (Fin P) ℚ)
  | [] => (s, [], [])
  | e :: rest =>
      let r1 := optInterpStep cfg s e
      let r2 := optInterpLoop cfg r1.1 rest
      (r2.1, r1.2.1 ++ r2.2.1, r1.2.2 ++ r2.2.2)

/-- The full `OptInterp` assimilator.  Setup: evaluate
`H = Obs.linear(np.nan, np.nan)` and abort with `AssimFailedError` —
before any stepping, state mutation or assessment — unless every entry is
finite; then compute `muC`, `PC`, `KG`, `P` and
`SM = fit_sigmoid(trace(P)/trace(2*PC), L, 0)`, initialize `mu = muC`,
emit `assess(0, mu=mu, Cov=PC)` and run the loop. -/
def optInterpRun {N M P : ℕ} (cfg : OIConfig N M P) (ticker : List TickEntry) :
    Except AssimFailedError
      (OIState M × List (Assess M) × List (Matrix (Fin M) (Fin P) ℚ)) :=
  if h : ∀ i j, (cfg.HExt i j).isSome then
    let muC := meanVec cfg.xx
    let PC := sampleCov cfg.xx
    let Pa := optInterpPa cfg
    let SM0 : SigParams := ⟨Pa.trace / Matrix.trace ((2 : ℚ) • PC), cfg.L, 0⟩
    let r := optInterpLoop cfg ⟨muC, SM0⟩ ticker
    Except.ok (r.1, ⟨0, none, none, muC, CovDiag.exact PC⟩ :: r.2.1, r.2.2)
  else Except.error AssimFailedError.timeIndepH

/-- The Kalman gains used by the analyses of an `OptInterp` run (empty if
the setup aborted). -/
def optInterpGains {N M P : ℕ} (cfg : OIConfig N M P) (ticker : List TickEntry) :
    List (Matrix (Fin M) (Fin P) ℚ) :=
  match optInterpRun cfg ticker with
  | Except.ok out => out.2.2
  | Except.error _ => []

/-- The value of the nonlocal `B` closed over by a `Var3D` assimilator:
`None`, the string `'clim'`, or a matrix. -/
inductive BSpec (M : ℕ)
  | noneB
  | clim
  | mat (B : Matrix (Fin M) (Fin M) ℚ)
deriving DecidableEq

/-- The collaborators and configuration consumed by one `Var3D` run;
`obsLinear` is `Obs.linear(mu, t)`, `X0mu`/`X0C` the initial
distribution's mean and full covariance, `xB` the background-covariance
multiplier, and `L` the value of
`estimate_corr_length(center(xx)[0].ravel(order='F'))` (not under `src/`,
carried as a parameter). -/
structure V3Config (N M P : ℕ) where
  Dyn : (Fin M → ℚ) → ℚ → ℚ → Fin M → ℚ
  obsApply : (Fin M → ℚ) → ℚ → Fin P → ℚ
  obsLinear : (Fin M → ℚ) → ℚ → Matrix (Fin P) (Fin M) ℚ
  R : Matrix (Fin P) (Fin P) ℚ
  xx : Fin N → Fin M → ℚ
  yy : ℕ → Fin P → ℚ
  L : ℚ
  X0mu : Fin M → ℚ
  X0C : Matrix (Fin M) (Fin M) ℚ
  xB : ℚ

/-- Replace the correlation length of a `Var3D` configuration, leaving
every other field unchanged. -/
def V3Config.setL {N M P : ℕ} (cfg : V3Config N M P) (L : ℚ) : V3Config N M P :=
  ⟨cfg.Dyn, cfg.obsApply, cfg.obsLinear, cfg.R, cfg.xx, cfg.yy, L,
    cfg.X0mu, cfg.X0C, cfg.xB⟩

/-- The background covariance actually used by a `Var3D` invocation:
`if B in (None, 'clim'): B = np.cov(xx.T)` followed by `B *= xB`.  The
result is also the value written back into the nonlocal `B`. -/
def var3dResolveB {N M P : ℕ} (cfg : V3Config N M P) (B0 : BSpec M) :
    Matrix (Fin M) (Fin M) ℚ :=
  cfg.xB • (match B0 with
    | BSpec.noneB => sampleCov cfg.xx
    | BSpec.clim => sampleCov cfg.xx
    | BSpec.mat B => B)

/-- `KG = mrdiv(B @ H.T, H @ B @ H.T + Obs.noise.C.full)`: the Kalman gain
recomputed at each `Var3D` analysis from the background `B` and the
current linearization `H`. -/
def var3dGain {M P : ℕ} (B : Matrix (Fin M) (Fin M) ℚ)
    (H : Matrix (Fin P) (Fin M) ℚ) (R : Matrix (Fin P) (Fin P) ℚ) :
    Matrix (Fin M) (Fin P) ℚ :=
  mrdiv (B * H.transpose) (H * B * H.transpose + R)

/-- `P = (eye(Dyn.M) - KG @ H) @ B`: the analysis covariance recomputed at
each `Var3D` analysis. -/
def var3dPa {M P : ℕ} (B : Matrix (Fin M) (Fin M) ℚ)
    (H : Matrix (Fin P) (Fin M) ℚ) (R : Matrix (Fin P) (Fin P) ℚ) :
    Matrix (Fin M) (Fin M) ℚ :=
  (1 - var3dGain B H R * H) * B

/-- The loop state of `Var3D`: current mean `mu`, current covariance `P`
(in the symbolic form handed to the sink) and current sigmoid `SM`. -/
structure V3State (M : ℕ) where
  mu : Fin M → ℚ
  P : CovDiag M
  SM : SigParams
deriving DecidableEq

/-- One iteration of the `Var3D` loop body at tick `e` with resolved
background `B`: forecast `mu = Dyn(mu, t-dt, dt)` and `P = CC*SM(k)` with
`CC = 2*np.cov(xx.T)`; on an observation step assess
`(k, kObs, 'f', mu=mu, Cov=P)`, compute `H = Obs.linear(mu, t)` and `KG`,
update `mu = mu + KG@(yy[kObs] - Obs(mu, t))`, recompute
`P = (eye(Dyn.M) - KG@H) @ B` and refit
`SM = fit_sigmoid(trace(P)/trace(CC), L, k)`; finally assess
`(k, kObs, mu=mu, Cov=P)`.  Returns the new state, the emitted records
and the gains used (`[KG]` on an observation step, `[]` otherwise). -/
def var3dStep {N M P : ℕ} (cfg : V3Config N M P)
    (B : Matrix (Fin M) (Fin M) ℚ) (s : V3State M) (e : TickEntry) :
    V3State M × List (Assess M) × List (Matrix (Fin M) (Fin P) ℚ) :=
  let CC := (2 : ℚ) • sampleCov cfg.xx
  let mu1 := cfg.Dyn s.mu (e.t - e.dt) e.dt
  let P1 : CovDiag M := CovDiag.scaled CC s.SM e.k
  match e.kObs with
  | none =>
      (⟨mu1, P1, s.SM⟩, [⟨e.k, none, none, mu1, P1⟩], [])
  | some j =>
      let H := cfg.obsLinear mu1 e.t
      let KG := var3dGain B H cfg.R
      let mu2 := mu1 + KG.mulVec (fun p => cfg.yy j p - cfg.obsApply mu1 e.t p)
      let Pa := var3dPa B H cfg.R
      let SM2 : SigParams := ⟨Pa.trace / CC.trace, cfg.L, (e.k : ℚ)⟩
      (⟨mu2, CovDiag.exact Pa, SM2⟩,
       [⟨e.k, some j, some Phase.f, mu1, P1⟩,
        ⟨e.k, some j, none, mu2, CovDiag.exact Pa⟩],
       [KG])

/-- The `Var3D` loop over the remaining ticker entries. -/
def var3dLoop {N M P : ℕ} (cfg : V3Config N M P) (B : Matrix (Fin M) (Fin M) ℚ)
    (s : V3State M) :
    List TickEntry →
      V3State M × List (Assess M) × List (Matrix (Fin M) (Fin P) ℚ)
  | [] => (s, [], [])
  | e :: rest =>
      let r1 := var3dStep cfg B s e
      let r2 := var3dLoop cfg B r1.1 rest
      (r2.1, r1.2.1 ++ r2.2.1, r1.2.2 ++ r2.2.2)

/-- One invocation of the `Var3D` assimilator starting from the closure
state `B0` of the nonlocal `B`.  It resolves and rescales `B` (writing the
result back into the closure: first component of the output), sets
`CC = 2*np.cov(xx.T)`, `P = X0.C.full`,
`SM = fit_sigmoid(trace(P)/trace(CC), L, 0)`, `mu = X0.mu`, emits
`assess(0, mu=mu, Cov=P)` and runs the loop.  Output:
`(new closure B, final state, assessments, gains used)`. -/
def var3dRun {N M P : ℕ} (cfg : V3Config N M P) (B0 : BSpec M)
    (ticker : List TickEntry) :
    BSpec M × V3State M × List (Assess M) × List (Matrix (Fin M) (Fin P) ℚ) :=
  let B := var3dResolveB cfg B0
  let CC := (2 : ℚ) • sampleCov cfg.xx
  let P0 := cfg.X0C
  let SM0 : SigParams := ⟨P0.trace / CC.trace, cfg.L, 0⟩
  let r := var3dLoop cfg B ⟨cfg.X0mu, CovDiag.exact P0, SM0⟩ ticker
  (BSpec.mat B, r.1,
    ⟨0, none, none, cfg.X0mu, CovDiag.exact P0⟩ :: r.2.1, r.2.2)

/-- `sigmoid = lambda k: 1/(1+exp(-k))`: the normalized logistic curve. -/
noncomputable def logisticFn (x : ℝ) : ℝ := 1 / (1 + Real.exp (-x))

/-- `fit_sigmoid(Sb, L, kb)`: `a = 1/L`, `b = inv_sig(Sb) = log(Sb/(1-Sb))`,
returning `S(k) = sigmoid(b + a*(k - kb))`. -/
noncomputable def fit_sigmoid (Sb L kb : ℝ) : ℝ → ℝ :=
  let a := 1 / L
  let b := Real.log (Sb / (1 - Sb))
  fun k => logisticFn (b + a * (k - kb))

/-- The curve a `SigParams` record stands for, evaluated at step `k`. -/
noncomputable def SigParams.eval (p : SigParams) (k : ℕ) : ℝ :=
  fit_sigmoid (p.Sb : ℝ) (p.L : ℝ) (p.kb : ℝ) (k : ℝ)

/-- The real matrix a symbolic covariance diagnostic stands for. -/
noncomputable def CovDiag.value {M : ℕ} : CovDiag M → Matrix (Fin M) (Fin M) ℝ
  | CovDiag.exact C => C.map Rat.cast
  | CovDiag.scaled C sm k => SigParams.eval sm k • C.map Rat.cast

/-- An IEEE-754-style scalar for the non-finite-propagation behavior of
`fit_sigmoid`: a finite real, `+inf`, `-inf`, or `nan`.  (Rounding and
signed zero are not modelled; none of the operations below depend on
them.) -/
inductive FP
  | fin (x : ℝ)
  | pinf
  | ninf
  | nan

/-- Whether a float is finite. -/
def FP.isFinite : FP → Prop
  | FP.fin _ => True
  | _ => False

/-- IEEE negation. -/
noncomputable def FP.neg : FP → FP
  | FP.fin x => FP.fin (-x)
  | FP.pinf => FP.ninf
  | FP.ninf => FP.pinf
  | FP.nan => FP.nan

/-- IEEE addition. -/
noncomputable def FP.add : FP → FP → FP
  | FP.nan, _ => FP.nan
  | _, FP.nan => FP.nan
  | FP.fin x, FP.fin y => FP.fin (x + y)
  | FP.pinf, FP.ninf => FP.nan
  | FP.ninf, FP.pinf => FP.nan
  | FP.pinf, _ => FP.pinf
  | _, FP.pinf => FP.pinf
  | FP.ninf, _ => FP.ninf
  | _, FP.ninf => FP.ninf

/-- IEEE subtraction, as addition of the negation. -/
noncomputable def FP.sub (x y : FP) : FP := FP.add x (FP.neg y)

/-- IEEE multiplication. -/
noncomputable def FP.mul : FP → FP → FP
  | FP.nan, _ => FP.nan
  | _, FP.nan => FP.nan
  | FP.fin x, FP.fin y => FP.fin (x * y)
  | FP.pinf, FP.pinf => FP.pinf
  | FP.pinf, FP.ninf => FP.ninf
  | FP.ninf, FP.pinf => FP.ninf
  | FP.ninf, FP.ninf => FP.pinf
  | FP.pinf, FP.fin y => if y = 0 then FP.nan else if 0 < y then FP.pinf else FP.ninf
  | FP.fin x, FP.pinf => if x = 0 then FP.nan else if 0 < x then FP.pinf else FP.ninf
  | FP.ninf, FP.fin y => if y = 0 then FP.nan else if 0 < y then FP.ninf else FP.pinf
  | FP.fin x, FP.ninf => if x = 0 then FP.nan else if 0 < x then FP.ninf else FP.pinf

/-- IEEE division (zero treated as `+0`). -/
noncomputable def FP.div : FP → FP → FP
  | FP.nan, _ => FP.nan
  | _, FP.nan => FP.nan
  | FP.fin x, FP.fin y =>
      if y = 0 then (if x = 0 then FP.nan else if 0 < x then FP.pinf else FP.ninf)
      else FP.fin (x / y)
  | FP.fin _, FP.pinf => FP.fin 0
  | FP.fin _, FP.ninf => FP.fin 0
  | FP.pinf, FP.fin y => if 0 ≤ y then FP.pinf else FP.ninf
  | FP.ninf, FP.fin y => if 0 ≤ y then FP.ninf else FP.pinf
  | FP.pinf, FP.pinf => FP.nan
  | FP.pinf, FP.ninf => FP.nan
  | FP.ninf, FP.pinf => FP.nan
  | FP.ninf, FP.ninf => FP.nan

/-- IEEE `exp`: `exp(-inf) = 0`, `exp(inf) = inf`, `exp(nan) = nan`. -/
noncomputable def FP.exp : FP → FP
  | FP.fin x => FP.fin (Real.exp x)
  | FP.pinf => FP.pinf
  | FP.ninf => FP.fin 0
  | FP.nan => FP.nan

/-- IEEE `log`: `log` of a negative number is `nan`, `log(0) = -inf`,
`log(inf) = inf`, `log(nan) = nan`. -/
noncomputable def FP.log : FP → FP
  | FP.fin x => if 0 < x then FP.fin (Real.log x) else if x = 0 then FP.ninf else FP.nan
  | FP.pinf => FP.pinf
  | FP.ninf => FP.nan
  | FP.nan => FP.nan

/-- `fit_sigmoid` evaluated in float semantics: `a = 1/L`,
`b = log(Sb/(1 - Sb))` with no clamping of `Sb`, and
`S(k) = 1/(1 + exp(-(b + a*(k - kb))))`. -/
noncomputable def fitSigmoidFP (Sb L kb : FP) : FP → FP :=
  let a := FP.div (FP.fin 1) L
  let b := FP.log (FP.div Sb (FP.sub (FP.fin 1) Sb))
  fun k =>
    FP.div (FP.fin 1)
      (FP.add (FP.fin 1) (FP.exp (FP.neg (FP.add b (FP.mul a (FP.sub k kb))))))

/-- The fields of an `OptInterp` output other than covariance diagnostics:
the `(k, kObs, phase, mean)` part of every assessment, and the gains. -/
def oiProj {M P : ℕ}
    (out : OIState M × List (Assess M) × List (Matrix (Fin M) (Fin P) ℚ)) :
    List (ℕ × Option ℕ × Option Phase × (Fin M → ℚ)) ×
      List (Matrix (Fin M) (Fin P) ℚ) :=
  (out.2.1.map Assess.core, out.2.2)

/-- The fields of a `Var3D` output other than covariance diagnostics:
the `(k, kObs, phase, mean)` part of every assessment, and the gains. -/
def v3Proj {M P : ℕ}
    (out : BSpec M × V3State M × List (Assess M) × List (Matrix (Fin M) (Fin P) ℚ)) :
    List (ℕ × Option ℕ × Option Phase × (Fin M → ℚ)) ×
      List (Matrix (Fin M) (Fin P) ℚ) :=
  (out.2.2.1.map Assess.core, out.2.2.2)

/-- Concrete scalar truth trajectory `(0, 2)`: time-mean `1`, sample
covariance `2`. -/
def exXX : Fin 2 → Fin 1 → ℚ := fun n _ => if n = 0 then 0 else 2

/-- Concrete observation sequence: every observation is `0`. -/
def exYY : ℕ → Fin 1 → ℚ := fun _ _ => 0

/-- Concrete one-entry ticker: an observation (index 0) at step 1. -/
def exEntry : TickEntry := ⟨1, some 0, 1, 1⟩

/-- Concrete ticker containing only `exEntry`. -/
def exTicker : List TickEntry := [exEntry]

/-- Concrete `OptInterp` configuration: identity dynamics, identity
(linear) observation operator with `H = [[1]]`, `R = [[1]]`,
observations `0`, correlation length `1`.  Kalman gain `2/3`, analysis
covariance `2/3`. -/
def exCfgOI : OIConfig 2 1 1 :=
  ⟨fun mu _ _ => mu, fun x _ => x, Matrix.of fun _ _ => some 1, 1, exXX, exYY, 1⟩

/-- As `exCfgOI` but with the affine observation operator
`Obs(x, t) = x + 1`, whose linearization is still `H = [[1]]`. -/
def exCfgOIaffine : OIConfig 2 1 1 :=
  ⟨fun mu _ _ => mu, fun x _ p => x p + 1, Matrix.of fun _ _ => some 1, 1,
    exXX, exYY, 1⟩

/-- A concrete `OptInterp` configuration whose `Obs.linear(nan, nan)` has
a non-finite entry. -/
def exCfgOIbad : OIConfig 2 1 1 :=
  ⟨fun mu _ _ => mu, fun x _ => x, Matrix.of fun _ _ => none, 1, exXX, exYY, 1⟩

/-- An arbitrary concrete `OptInterp` loop state. -/
def exStateOI : OIState 1 := ⟨fun _ => 5, ⟨1/2, 1, 0⟩⟩

/-- Concrete `Var3D` configuration for the perfect-observation limit:
identity dynamics and observation operator, zero observation noise,
`B = None` resolved from climatology, `xB = 1`. -/
def exCfgV3 : V3Config 2 1 1 :=
  ⟨fun mu _ _ => mu, fun x _ => x, fun _ _ => 1, 0, exXX, exYY, 1,
    fun _ => 0, 1, 1⟩

/-- Concrete `Var3D` configuration with the degenerate observation
linearization `H = [[0]]`, `R = [[1]]` and multiplier `xB = 2`. -/
def exCfgV3H0 : V3Config 2 1 1 :=
  ⟨fun mu _ _ => mu, fun x _ => x, fun _ _ => 0, 1, exXX, exYY, 1,
    fun _ => 0, 1, 2⟩

/-- An arbitrary concrete `Var3D` loop state. -/
def exStateV3 : V3State 1 := ⟨fun _ => 5, CovDiag.exact 1, ⟨1/2, 1, 0⟩⟩

/-! ### Helper lemmas -/

theorem mrdiv_eq_mul_inv {a b : ℕ} (Bm : Matrix (Fin a) (Fin b) ℚ)
    (A : Matrix (Fin b) (Fin b) ℚ) : mrdiv Bm A = Bm * A⁻¹ := by
  rw [mrdiv, Matrix.inv_def, Ring.inverse_eq_inv]

theorem mrdiv_self {n : ℕ} (A : Matrix (Fin n) (Fin n) ℚ) (h : A.det ≠ 0) :
    mrdiv A A = 1 := by
  rw [mrdiv, Matrix.mul_smul, Matrix.mul_adjugate, smul_smul,
    inv_mul_cancel₀ h, one_smul]

theorem exXX_sampleCov : sampleCov exXX = Matrix.of fun _ _ => 2 := by
  apply Matrix.ext
  intro i j
  fin_cases i
  fin_cases j
  simp [sampleCov, anomalies, meanVec, exXX, Fin.sum_univ_succ]
  norm_num

theorem exCfgOI_KG : optInterpKG exCfgOI = Matrix.of fun _ _ => 2 / 3 := by
  apply Matrix.ext
  intro i j
  fin_cases i
  fin_cases j
  simp [optInterpKG, mrdiv, Matrix.mul_apply, Fin.sum_univ_succ,
    Matrix.det_fin_one, Matrix.adjugate_fin_one, extractH, exCfgOI,
    sampleCov, anomalies, meanVec, exXX, Matrix.one_apply, Matrix.smul_apply,
    Matrix.transpose_apply]
  norm_num

theorem exCfgOIaffine_KG : optInterpKG exCfgOIaffine = Matrix.of fun _ _ => 2 / 3 := by
  apply Matrix.ext
  intro i j
  fin_cases i
  fin_cases j
  simp [optInterpKG, mrdiv, Matrix.mul_apply, Fin.sum_univ_succ,
    Matrix.det_fin_one, Matrix.adjugate_fin_one, extractH, exCfgOIaffine,
    sampleCov, anomalies, meanVec, exXX, Matrix.one_apply, Matrix.smul_apply,
    Matrix.transpose_apply]
  norm_num

theorem exCfgOI_Pa : optInterpPa exCfgOI = Matrix.of fun _ _ => 2 / 3 := by
  apply Matrix.ext
  intro i j
  fin_cases i
  fin_cases j
  rw [optInterpPa, exCfgOI_KG]
  simp [Matrix.mul_apply, Fin.sum_univ_succ, extractH, exCfgOI,
    Matrix.one_apply, Matrix.sub_apply]
  rw [show sampleCov exXX = Matrix.of fun _ _ => 2 from exXX_sampleCov]
  norm_num

/-! ### C8: Climatology emits the climatological mean and covariance at
every tick and never reads the observations -/

/-- C8: for every truth trajectory, every diagnostic assessment emitted by
a `Climatology` run — the one at initialization and the one at every tick —
carries exactly the climatological mean `muC` and the single climatological
covariance `PC`, and the observation sequence is never read (two runs that
differ only in `yy` emit identical assessments). -/
theorem climatology_constant_assessments {N M P : ℕ} (xx : Fin N → Fin M → ℚ)
    (yy yy2 : ℕ → Fin P → ℚ) (ticker : List TickEntry) :
    (∀ a ∈ Climatology xx yy ticker,
        a.mu = meanVec xx ∧ a.cov = CovDiag.exact (sampleCov xx)) ∧
    Climatology xx yy ticker = Climatology xx yy2 ticker := by
  refine ⟨?_, rfl⟩
  intro a ha
  simp only [Climatology, List.mem_cons, List.mem_map] at ha
  rcases ha with h | ⟨e, _, h⟩
  · subst h
    exact ⟨rfl, rfl⟩
  · rw [show a = _ from h.symm]
    exact ⟨rfl, rfl⟩

/-- Witness for C8 at the concrete trajectory `exXX`: the initialization
assessment of a concrete run carries `meanVec exXX` and
`sampleCov exXX`. -/
theorem climatology_constant_assessments_witness :
    ((⟨0, none, none, meanVec exXX, CovDiag.exact (sampleCov exXX)⟩ : Assess 1) ∈
        Climatology exXX exYY exTicker) ∧
    ((⟨0, none, none, meanVec exXX, CovDiag.exact (sampleCov exXX)⟩ : Assess 1).mu
        = meanVec exXX ∧
      (⟨0, none, none, meanVec exXX, CovDiag.exact (sampleCov exXX)⟩ : Assess 1).cov
        = CovDiag.exact (sampleCov exXX)) :=
  ⟨by simp [Climatology],
   (climatology_constant_assessments exXX exYY exYY exTicker).1 _
     (by simp [Climatology])⟩

/-! ### C5: the OptInterp setup finiteness check -/

/-- C5: `OptInterp` aborts with `AssimFailedError` at setup — before any
forecast step, state mutation or diagnostic emission (the error output
carries no state and no assessments) — if and only if
`Obs.linear(np.nan, np.nan)` has a non-finite entry; when every entry is
finite the run proceeds normally. -/
theorem oi_setup_finiteness_check {N M P : ℕ} (cfg : OIConfig N M P)
    (ticker : List TickEntry) :
    ((∃ i j, cfg.HExt i j = none) ↔
      optInterpRun cfg ticker = Except.error AssimFailedError.timeIndepH) ∧
    ((∀ i j, (cfg.HExt i j).isSome) →
      ∃ out, optInterpRun cfg ticker = Except.ok out) := by
  by_cases h : ∀ i j, (cfg.HExt i j).isSome
  · refine ⟨⟨?_, ?_⟩, ?_⟩
    · rintro ⟨i, j, hij⟩
      exact absurd (h i j) (by simp [hij])
    · intro hrun
      rw [optInterpRun, dif_pos h] at hrun
      cases hrun
    · intro _
      rw [optInterpRun, dif_pos h]
      exact ⟨_, rfl⟩
  · refine ⟨⟨?_, ?_⟩, ?_⟩
    · intro _
      rw [optInterpRun, dif_neg h]
    · intro _
      push_neg at h
      obtain ⟨i, j, hij⟩ := h
      exact ⟨i, j, Option.not_isSome_iff_eq_none.mp hij⟩
    · intro hall
      exact absurd hall h

/-- Witness for C5: the concrete configuration `exCfgOI` has an
all-finite `H` and its run returns `Except.ok`; the concrete
configuration `exCfgOIbad` has a non-finite entry and aborts. -/
theorem oi_setup_finiteness_check_witness :
    (∀ i j, (exCfgOI.HExt i j).isSome) ∧
    (∃ out, optInterpRun exCfgOI exTicker = Except.ok out) ∧
    optInterpRun exCfgOIbad exTicker = Except.error AssimFailedError.timeIndepH :=
  ⟨by intro i j; simp [exCfgOI],
   (oi_setup_finiteness_check exCfgOI exTicker).2 (by intro i j; simp [exCfgOI]),
   (oi_setup_finiteness_check exCfgOIbad exTicker).1.mp ⟨0, 0, by simp [exCfgOIbad]⟩⟩

/-! ### C3: the OptInterp Kalman gain is computed once and reused -/

theorem optInterpLoop_gains {N M P : ℕ} (cfg : OIConfig N M P) :
    ∀ (T : List TickEntry) (s : OIState M) (g : Matrix (Fin M) (Fin P) ℚ),
      g ∈ (optInterpLoop cfg s T).2.2 → g = optInterpKG cfg := by
  intro T
  induction T with
  | nil =>
      intro s g hg
      simp [optInterpLoop] at hg
  | cons e rest ih =>
      intro s g hg
      rw [optInterpLoop] at hg
      simp only [List.mem_append] at hg
      rcases hg with hg | hg
      · obtain ⟨k, kObs, t, dt⟩ := e
        cases kObs <;> simp [optInterpStep] at hg
        exact hg
      · exact ih _ g hg

/-- C3: in any single `OptInterp` run, every Kalman gain used by an
analysis equals `optInterpKG cfg` — the matrix computed once at setup —
which is `PC·Hᵀ·(H·PC·Hᵀ + R)⁻¹` from the climatological covariance, the
time-independent observation operator and the observation-noise
covariance. -/
theorem oi_gain_computed_once {N M P : ℕ} (cfg : OIConfig N M P)
    (ticker : List TickEntry) :
    (∀ g ∈ optInterpGains cfg ticker, g = optInterpKG cfg) ∧
    optInterpKG cfg =
      sampleCov cfg.xx * (extractH cfg.HExt).transpose *
        (extractH cfg.HExt * sampleCov cfg.xx * (extractH cfg.HExt).transpose
          + cfg.R)⁻¹ := by
  constructor
  · intro g hg
    rw [optInterpGains] at hg
    by_cases h : ∀ i j, (cfg.HExt i j).isSome
    · rw [optInterpRun, dif_pos h] at hg
      exact optInterpLoop_gains cfg ticker _ g hg
    · rw [optInterpRun, dif_neg h] at hg
      simp at hg
  · rw [optInterpKG, mrdiv_eq_mul_inv]

/-- Witness for C3: in the concrete run, the matrix `[[2/3]]` is a gain
used at an observation step and equals the setup gain. -/
theorem oi_gain_computed_once_witness :
    ((Matrix.of fun _ _ => (2 : ℚ) / 3) ∈ optInterpGains exCfgOI exTicker) ∧
    (Matrix.of fun _ _ => (2 : ℚ) / 3) = optInterpKG exCfgOI :=
  have hmem : (Matrix.of fun _ _ => (2 : ℚ) / 3) ∈ optInterpGains exCfgOI exTicker := by
    rw [optInterpGains, optInterpRun, dif_pos (by intro i j; simp [exCfgOI])]
    simp [exTicker, optInterpLoop, exEntry, optInterpStep, exCfgOI_KG]
  ⟨hmem, (oi_gain_computed_once exCfgOI exTicker).1 _ hmem⟩

/-! ### C4: the OptInterp analysis mean is anchored at the climatological
mean, not the propagated forecast -/

/-- C4 (amended): at every observation step the `OptInterp` post-analysis
mean equals `muC + KG·(y − Obs(muC, t))` — the full observation operator
applied to the climatological mean — which coincides with the claimed
`muC + KG·(y − H·muC)` whenever the operator acts linearly as `H`.  The
result does not depend on the loop state `s`, so the forecast mean
propagated during the step is discarded for the correction term. -/
theorem oi_analysis_mean_from_climatology {N M P : ℕ} (cfg : OIConfig N M P)
    (s : OIState M) (e : TickEntry) (j : ℕ) (hk : e.kObs = some j) :
    ((optInterpStep cfg s e).1.mu =
      meanVec cfg.xx + (optInterpKG cfg).mulVec
        (fun p => cfg.yy j p - cfg.obsApply (meanVec cfg.xx) e.t p)) ∧
    (∀ s2 : OIState M,
      (optInterpStep cfg s e).1.mu = (optInterpStep cfg s2 e).1.mu) ∧
    ((∀ x t, cfg.obsApply x t = (extractH cfg.HExt).mulVec x) →
      (optInterpStep cfg s e).1.mu =
        meanVec cfg.xx + (optInterpKG cfg).mulVec
          (fun p => cfg.yy j p -
            (extractH cfg.HExt).mulVec (meanVec cfg.xx) p)) := by
  obtain ⟨k, kObs, t, dt⟩ := e
  simp only at hk
  subst hk
  refine ⟨rfl, fun s2 => rfl, fun hlin => ?_⟩
  simp [optInterpStep, hlin]

/-- Witness for C4's amended statement at the concrete configuration. -/
theorem oi_analysis_mean_from_climatology_witness :
    exEntry.kObs = some 0 ∧
    (optInterpStep exCfgOI exStateOI exEntry).1.mu =
      meanVec exCfgOI.xx + (optInterpKG exCfgOI).mulVec
        (fun p => exCfgOI.yy 0 p - exCfgOI.obsApply (meanVec exCfgOI.xx) exEntry.t p) :=
  ⟨rfl, (oi_analysis_mean_from_climatology exCfgOI exStateOI exEntry 0 rfl).1⟩

/-- C4 counterexample: with the affine observation operator
`Obs(x, t) = x + 1` (whose linearization is still `H = [[1]]`), the
post-analysis mean of the concrete run is `-1/3`, not the
`muC + KG·(y − H·muC) = 1/3` the claim states. -/
theorem oi_analysis_mean_claim_cex :
    (optInterpStep exCfgOIaffine exStateOI exEntry).1.mu ≠
      meanVec exCfgOIaffine.xx + (optInterpKG exCfgOIaffine).mulVec
        (fun p => exCfgOIaffine.yy 0 p -
          (extractH exCfgOIaffine.HExt).mulVec (meanVec exCfgOIaffine.xx) p) := by
  intro hEq
  have h0 := congrFun hEq 0
  rw [show (optInterpStep exCfgOIaffine exStateOI exEntry).1.mu =
        meanVec exCfgOIaffine.xx + (optInterpKG exCfgOIaffine).mulVec
          (fun p => exCfgOIaffine.yy 0 p -
            exCfgOIaffine.obsApply (meanVec exCfgOIaffine.xx) exEntry.t p)
      from rfl] at h0
  rw [exCfgOIaffine_KG] at h0
  simp [Matrix.mulVec, Matrix.dotProduct, Fin.sum_univ_succ, exCfgOIaffine,
    extractH, meanVec, exXX, exYY, Pi.add_apply] at h0
  norm_num at h0

/-! ### C2: the sigmoid refit performed after each analysis -/

/-- C2 (amended): after the analysis at each observation step `k`, `Var3D`
recomputes `P_a = (I − K·H)·B` at that step (from the current
linearization `H` and gain `K`) and refits the sigmoid anchored at
`(trace(P_a)/trace(2·cov(xx)), k)`; `OptInterp` refits the sigmoid at each
observation step anchored at `(trace(P_a)/trace(PC), k)` — denominator
`trace(PC)`, not the claimed `trace(2·PC)` — where `P_a = (I − K·H)·PC`
is the analysis covariance computed once at setup (its value at every
step, since `K`, `H` and `PC` are constant within a run). -/
theorem refit_anchor {N M P : ℕ} (cfg : OIConfig N M P) (vcfg : V3Config N M P)
    (B : Matrix (Fin M) (Fin M) ℚ) (s : OIState M) (v : V3State M)
    (e : TickEntry) (j : ℕ) (hk : e.kObs = some j) :
    (optInterpStep cfg s e).1.SM =
      ⟨(optInterpPa cfg).trace / (sampleCov cfg.xx).trace, cfg.L, (e.k : ℚ)⟩ ∧
    (var3dStep vcfg B v e).1.SM =
      ⟨(var3dPa B (vcfg.obsLinear (vcfg.Dyn v.mu (e.t - e.dt) e.dt) e.t) vcfg.R).trace /
          Matrix.trace ((2 : ℚ) • sampleCov vcfg.xx), vcfg.L, (e.k : ℚ)⟩ := by
  obtain ⟨k, kObs, t, dt⟩ := e
  simp only at hk
  subst hk
  exact ⟨rfl, rfl⟩

/-- Witness for C2's amended statement at the concrete configurations. -/
theorem refit_anchor_witness :
    exEntry.kObs = some 0 ∧
    (optInterpStep exCfgOI exStateOI exEntry).1.SM =
      ⟨(optInterpPa exCfgOI).trace / (sampleCov exCfgOI.xx).trace, exCfgOI.L,
        (exEntry.k : ℚ)⟩ :=
  ⟨rfl, (refit_anchor exCfgOI exCfgV3 1 exStateOI exStateV3 exEntry 0 rfl).1⟩

/-- C2 counterexample: in the concrete `OptInterp` run the sigmoid refit
at observation step 1 is anchored at `trace(P_a)/trace(PC) = 1/3`, not at
the claimed `trace(P_a)/trace(2·PC) = 1/6`. -/
theorem refit_anchor_claim_cex :
    (optInterpStep exCfgOI exStateOI exEntry).1.SM.Sb ≠
      (optInterpPa exCfgOI).trace / Matrix.trace ((2 : ℚ) • sampleCov exCfgOI.xx) := by
  have hSb : (optInterpStep exCfgOI exStateOI exEntry).1.SM.Sb =
      (optInterpPa exCfgOI).trace / (sampleCov exCfgOI.xx).trace := rfl
  rw [hSb, show optInterpPa exCfgOI = Matrix.of fun _ _ => 2 / 3 from exCfgOI_Pa,
    show sampleCov exCfgOI.xx = Matrix.of fun _ _ => 2 from exXX_sampleCov]
  simp [Matrix.trace, Matrix.diag, Fin.sum_univ_succ, Matrix.smul_apply]
  norm_num

/-! ### C9: Var3D in the perfect-observation limit -/

/-- C9: `Var3D` configured with `B` from climatology (`B0` is `None` or
`'clim'`) and `xB = 1`, identity observation operator, zero observation
noise, and invertible climatological covariance: the post-analysis mean at
every observation step equals the observation vector exactly. -/
theorem var3d_perfect_obs {N M : ℕ} (cfg : V3Config N M M) (B0 : BSpec M)
    (s : V3State M) (e : TickEntry) (j : ℕ) (hk : e.kObs = some j)
    (hB0 : B0 = BSpec.noneB ∨ B0 = BSpec.clim) (hxB : cfg.xB = 1)
    (hobs : ∀ x t, cfg.obsApply x t = x)
    (hlin : ∀ x t, cfg.obsLinear x t = 1)
    (hR : cfg.R = 0) (hdet : (sampleCov cfg.xx).det ≠ 0) :
    (var3dStep cfg (var3dResolveB cfg B0) s e).1.mu = cfg.yy j := by
  have hB : var3dResolveB cfg B0 = sampleCov cfg.xx := by
    rcases hB0 with h | h <;> subst h <;> simp [var3dResolveB, hxB]
  have hgain : var3dGain (sampleCov cfg.xx) (1 : Matrix (Fin M) (Fin M) ℚ) 0 = 1 := by
    simp only [var3dGain, Matrix.transpose_one, Matrix.mul_one, Matrix.one_mul,
      add_zero]
    exact mrdiv_self _ hdet
  obtain ⟨k, kObs, t, dt⟩ := e
  simp only at hk
  subst hk
  have hmu : (var3dStep cfg (var3dResolveB cfg B0) s ⟨k, some j, t, dt⟩).1.mu =
      cfg.Dyn s.mu (t - dt) dt +
        (var3dGain (var3dResolveB cfg B0)
            (cfg.obsLinear (cfg.Dyn s.mu (t - dt) dt) t) cfg.R).mulVec
          (fun p => cfg.yy j p - cfg.obsApply (cfg.Dyn s.mu (t - dt) dt) t p) := rfl
  rw [hmu, hB, hlin, hR, hgain, Matrix.one_mulVec, hobs]
  funext p
  simp

/-- Witness for C9 at the concrete configuration `exCfgV3`. -/
theorem var3d_perfect_obs_witness :
    exEntry.kObs = some 0 ∧ (sampleCov exCfgV3.xx).det ≠ 0 ∧
    (var3dStep exCfgV3 (var3dResolveB exCfgV3 BSpec.noneB) exStateV3 exEntry).1.mu =
      exCfgV3.yy 0 :=
  have hdet : (sampleCov exCfgV3.xx).det ≠ 0 := by
    rw [show sampleCov exCfgV3.xx = Matrix.of fun _ _ => 2 from exXX_sampleCov]
    simp [Matrix.det_fin_one]
  ⟨rfl, hdet,
   var3d_perfect_obs exCfgV3 BSpec.noneB exStateV3 exEntry 0 rfl (Or.inl rfl) rfl
     (fun x t => rfl) (fun x t => rfl) rfl hdet⟩

/-! ### C10: the nonlocal background covariance is mutated across
invocations -/

theorem var3dGain_scalar (b r : ℚ) :
    var3dGain (b • (1 : Matrix (Fin 1) (Fin 1) ℚ)) (1 : Matrix (Fin 1) (Fin 1) ℚ)
        (r • (1 : Matrix (Fin 1) (Fin 1) ℚ)) =
      (b / (b + r)) • (1 : Matrix (Fin 1) (Fin 1) ℚ) := by
  apply Matrix.ext
  intro i j
  fin_cases i
  fin_cases j
  simp [var3dGain, mrdiv, Matrix.mul_apply, Fin.sum_univ_succ,
    Matrix.det_fin_one, Matrix.adjugate_fin_one, Matrix.one_apply,
    Matrix.smul_apply, Matrix.transpose_apply, Matrix.add_apply]
  rw [div_eq_mul_inv]

/-- C10 (amended): each `Var3D` invocation writes `xB · (resolved B)` back
into the closed-over `B`; a second invocation of the same configured
instance therefore starts from that matrix and, having begun with
`B = None`, uses `xB²·cov(xx)`; in a nondegenerate scalar configuration
(`H = [1]`, `R = [r]` with `r > 0`, climatological variance `c > 0`,
`0 < xB ≠ 1`) the gains of the two invocations differ — though not for
degenerate operators such as `H = [0]` (see the counterexample). -/
theorem var3d_background_mutation {N M P : ℕ} (cfg : V3Config N M P)
    (B0 : BSpec M) (ticker : List TickEntry) :
    (var3dRun cfg B0 ticker).1 = BSpec.mat (var3dResolveB cfg B0) ∧
    var3dResolveB cfg (var3dRun cfg BSpec.noneB ticker).1 =
      (cfg.xB * cfg.xB) • sampleCov cfg.xx ∧
    (∀ c r xB : ℚ, 0 < c → 0 < r → 0 < xB → xB ≠ 1 →
      var3dGain ((xB * xB * c) • (1 : Matrix (Fin 1) (Fin 1) ℚ))
          (1 : Matrix (Fin 1) (Fin 1) ℚ) (r • (1 : Matrix (Fin 1) (Fin 1) ℚ)) ≠
        var3dGain ((xB * c) • (1 : Matrix (Fin 1) (Fin 1) ℚ))
          (1 : Matrix (Fin 1) (Fin 1) ℚ) (r • (1 : Matrix (Fin 1) (Fin 1) ℚ))) := by
  refine ⟨rfl, ?_, ?_⟩
  · show var3dResolveB cfg (BSpec.mat (var3dResolveB cfg BSpec.noneB)) = _
    simp only [var3dResolveB]
    rw [smul_smul]
  · intro c r xB hc hr hxB hne h
    rw [var3dGain_scalar, var3dGain_scalar] at h
    have h00 := congrFun (congrFun h 0) 0
    simp only [Matrix.smul_apply, Matrix.one_apply_eq, smul_eq_mul, mul_one] at h00
    have d1 : xB * xB * c + r ≠ 0 := by positivity
    have d2 : xB * c + r ≠ 0 := by positivity
    rw [div_eq_div_iff d1 d2] at h00
    have key : (xB * xB) * (c * r) = xB * (c * r) := by linear_combination h00
    have hcr : c * r ≠ 0 := by positivity
    have hxx : xB * xB = xB := mul_right_cancel₀ hcr key
    have : xB * xB = xB * 1 := by rw [mul_one]; exact hxx
    exact hne (mul_left_cancel₀ (ne_of_gt hxB) this)

/-- Witness for C10's amended statement: the concrete instance mutates its
background, and in the nondegenerate scalar instance `c = 1, r = 1,
xB = 2` the two invocations' gains differ. -/
theorem var3d_background_mutation_witness :
    (var3dRun exCfgV3H0 BSpec.noneB exTicker).1 =
      BSpec.mat (var3dResolveB exCfgV3H0 BSpec.noneB) ∧
    var3dGain ((2 * 2 * 1 : ℚ) • (1 : Matrix (Fin 1) (Fin 1) ℚ))
        (1 : Matrix (Fin 1) (Fin 1) ℚ) ((1 : ℚ) • (1 : Matrix (Fin 1) (Fin 1) ℚ)) ≠
      var3dGain ((2 * 1 : ℚ) • (1 : Matrix (Fin 1) (Fin 1) ℚ))
        (1 : Matrix (Fin 1) (Fin 1) ℚ) ((1 : ℚ) • (1 : Matrix (Fin 1) (Fin 1) ℚ)) :=
  ⟨(var3d_background_mutation exCfgV3H0 BSpec.noneB exTicker).1,
   (var3d_background_mutation exCfgV3H0 BSpec.noneB exTicker).2.2 1 1 2
     (by norm_num) (by norm_num) (by norm_num) (by norm_num)⟩

/-- C10 counterexample to "hence a different Kalman gain": with the
degenerate linearization `H = [[0]]` and `xB = 2 ≠ 1`, running the same
configured `Var3D` instance twice rescales the background (second
conjunct) yet uses exactly the same Kalman gains on both runs (first
conjunct). -/
theorem var3d_gain_change_claim_cex :
    (var3dRun exCfgV3H0 ((var3dRun exCfgV3H0 BSpec.noneB exTicker).1) exTicker).2.2.2 =
      (var3dRun exCfgV3H0 BSpec.noneB exTicker).2.2.2 ∧
    var3dResolveB exCfgV3H0 ((var3dRun exCfgV3H0 BSpec.noneB exTicker).1) ≠
      var3dResolveB exCfgV3H0 BSpec.noneB := by
  constructor
  · simp [var3dRun, var3dLoop, var3dStep, exTicker, exEntry, exCfgV3H0,
      var3dGain, mrdiv, Matrix.transpose_zero, Matrix.mul_zero, Matrix.zero_mul]
  · intro hEq
    have h00 := congrFun (congrFun hEq 0) 0
    simp only [var3dResolveB, var3dRun] at h00
    rw [show sampleCov exCfgV3H0.xx = Matrix.of fun _ _ => 2 from exXX_sampleCov] at h00
    simp [exCfgV3H0, Matrix.smul_apply] at h00

/-! ### C1: the fitted sigmoid never feeds back into the gains or means -/

theorem optInterpStep_L_invariant {N M P : ℕ} (cfg : OIConfig N M P)
    (L1 L2 : ℚ) (s1 s2 : OIState M) (hmu : s1.mu = s2.mu) (e : TickEntry) :
    (optInterpStep (cfg.setL L1) s1 e).1.mu = (optInterpStep (cfg.setL L2) s2 e).1.mu ∧
    (optInterpStep (cfg.setL L1) s1 e).2.1.map Assess.core =
      (optInterpStep (cfg.setL L2) s2 e).2.1.map Assess.core ∧
    (optInterpStep (cfg.setL L1) s1 e).2.2 = (optInterpStep (cfg.setL L2) s2 e).2.2 := by
  obtain ⟨k, kObs, t, dt⟩ := e
  cases kObs <;>
    simp [optInterpStep, OIConfig.setL, Assess.core, hmu, optInterpKG, optInterpPa]

theorem optInterpLoop_L_invariant {N M P : ℕ} (cfg : OIConfig N M P) (L1 L2 : ℚ) :
    ∀ (T : List TickEntry) (s1 s2 : OIState M), s1.mu = s2.mu →
      (optInterpLoop (cfg.setL L1) s1 T).1.mu = (optInterpLoop (cfg.setL L2) s2 T).1.mu ∧
      (optInterpLoop (cfg.setL L1) s1 T).2.1.map Assess.core =
        (optInterpLoop (cfg.setL L2) s2 T).2.1.map Assess.core ∧
      (optInterpLoop (cfg.setL L1) s1 T).2.2 = (optInterpLoop (cfg.setL L2) s2 T).2.2 := by
  intro T
  induction T with
  | nil =>
      intro s1 s2 h
      simp [optInterpLoop, h]
  | cons e rest ih =>
      intro s1 s2 h
      have hs := optInterpStep_L_invariant cfg L1 L2 s1 s2 h e
      have hr := ih _ _ hs.1
      simp only [optInterpLoop, List.map_append]
      exact ⟨hr.1, by rw [hs.2.1, hr.2.1], by rw [hs.2.2, hr.2.2]⟩

theorem var3dStep_L_invariant {N M P : ℕ} (cfg : V3Config N M P) (L1 L2 : ℚ)
    (B : Matrix (Fin M) (Fin M) ℚ) (s1 s2 : V3State M) (hmu : s1.mu = s2.mu)
    (e : TickEntry) :
    (var3dStep (cfg.setL L1) B s1 e).1.mu = (var3dStep (cfg.setL L2) B s2 e).1.mu ∧
    (var3dStep (cfg.setL L1) B s1 e).2.1.map Assess.core =
      (var3dStep (cfg.setL L2) B s2 e).2.1.map Assess.core ∧
    (var3dStep (cfg.setL L1) B s1 e).2.2 = (var3dStep (cfg.setL L2) B s2 e).2.2 := by
  obtain ⟨k, kObs, t, dt⟩ := e
  cases kObs <;>
    simp [var3dStep, V3Config.setL, Assess.core, hmu, var3dGain, var3dPa]

theorem var3dLoop_L_invariant {N M P : ℕ} (cfg : V3Config N M P) (L1 L2 : ℚ)
    (B : Matrix (Fin M) (Fin M) ℚ) :
    ∀ (T : List TickEntry) (s1 s2 : V3State M), s1.mu = s2.mu →
      (var3dLoop (cfg.setL L1) B s1 T).1.mu = (var3dLoop (cfg.setL L2) B s2 T).1.mu ∧
      (var3dLoop (cfg.setL L1) B s1 T).2.1.map Assess.core =
        (var3dLoop (cfg.setL L2) B s2 T).2.1.map Assess.core ∧
      (var3dLoop (cfg.setL L1) B s1 T).2.2 = (var3dLoop (cfg.setL L2) B s2 T).2.2 := by
  intro T
  induction T with
  | nil =>
      intro s1 s2 h
      simp [var3dLoop, h]
  | cons e rest ih =>
      intro s1 s2 h
      have hs := var3dStep_L_invariant cfg L1 L2 B s1 s2 h e
      have hr := ih _ _ hs.1
      simp only [var3dLoop, List.map_append]
      exact ⟨hr.1, by rw [hs.2.1, hr.2.1], by rw [hs.2.2, hr.2.2]⟩

/-- C1: two `OptInterp` runs and two `Var3D` runs identical except for the
correlation length `L` (hence except for the fitted sigmoid `SM`) produce
the same Kalman gains and the same trajectory of means — indeed the same
`(k, kObs, phase, mean)` part of every assessment — so `SM` influences only
the covariance values reported to the diagnostic sink. -/
theorem means_gains_independent_of_corr_length {N M P : ℕ}
    (cfg : OIConfig N M P) (vcfg : V3Config N M P) (B0 : BSpec M)
    (L1 L2 : ℚ) (ticker : List TickEntry) :
    (optInterpRun (cfg.setL L1) ticker).map oiProj =
      (optInterpRun (cfg.setL L2) ticker).map oiProj ∧
    v3Proj (var3dRun (vcfg.setL L1) B0 ticker) =
      v3Proj (var3dRun (vcfg.setL L2) B0 ticker) := by
  constructor
  · simp only [optInterpRun, OIConfig.setL]
    by_cases h : ∀ i j, (cfg.HExt i j).isSome
    · rw [dif_pos h, dif_pos h]
      have hl := optInterpLoop_L_invariant cfg L1 L2 ticker
        ⟨meanVec cfg.xx, ⟨(optInterpPa (cfg.setL L1)).trace /
            Matrix.trace ((2 : ℚ) • sampleCov cfg.xx), L1, 0⟩⟩
        ⟨meanVec cfg.xx, ⟨(optInterpPa (cfg.setL L2)).trace /
            Matrix.trace ((2 : ℚ) • sampleCov cfg.xx), L2, 0⟩⟩ rfl
      simp only [Except.map, oiProj, List.map_cons, Assess.core]
      rw [show (OIConfig.mk cfg.Dyn cfg.obsApply cfg.HExt cfg.R cfg.xx cfg.yy L1)
            = cfg.setL L1 from rfl,
        show (OIConfig.mk cfg.Dyn cfg.obsApply cfg.HExt cfg.R cfg.xx cfg.yy L2)
            = cfg.setL L2 from rfl]
      rw [hl.2.1, hl.2.2]
    · rw [dif_neg h, dif_neg h]
  · have hl := var3dLoop_L_invariant vcfg L1 L2 (var3dResolveB (vcfg.setL L1) B0) ticker
      ⟨vcfg.X0mu, CovDiag.exact vcfg.X0C,
        ⟨vcfg.X0C.trace / Matrix.trace ((2 : ℚ) • sampleCov vcfg.xx), L1, 0⟩⟩
      ⟨vcfg.X0mu, CovDiag.exact vcfg.X0C,
        ⟨vcfg.X0C.trace / Matrix.trace ((2 : ℚ) • sampleCov vcfg.xx), L2, 0⟩⟩ rfl
    have hB : var3dResolveB (vcfg.setL L2) B0 = var3dResolveB (vcfg.setL L1) B0 := rfl
    simp only [var3dRun, v3Proj, V3Config.setL, List.map_cons, Assess.core]
    rw [show (V3Config.mk vcfg.Dyn vcfg.obsApply vcfg.obsLinear vcfg.R vcfg.xx
          vcfg.yy L1 vcfg.X0mu vcfg.X0C vcfg.xB) = vcfg.setL L1 from rfl,
      show (V3Config.mk vcfg.Dyn vcfg.obsApply vcfg.obsLinear vcfg.R vcfg.xx
          vcfg.yy L2 vcfg.X0mu vcfg.X0C vcfg.xB) = vcfg.setL L2 from rfl]
    rw [hB]
    rw [hl.2.1, hl.2.2]

/-! ### C6: the fitted sigmoid -/

theorem logisticFn_strictMono : StrictMono logisticFn := by
  intro x y hxy
  have hexp := Real.exp_lt_exp.mpr (neg_lt_neg hxy)
  rw [logisticFn, logisticFn]
  exact one_div_lt_one_div_of_lt (by positivity) (by linarith)

theorem logisticFn_tendsto_atTop :
    Filter.Tendsto logisticFn Filter.atTop (nhds 1) := by
  have h1 : Filter.Tendsto (fun x : ℝ => Real.exp (-x)) Filter.atTop (nhds 0) :=
    Real.tendsto_exp_atBot.comp Filter.tendsto_neg_atTop_atBot
  have h2 : Filter.Tendsto (fun x : ℝ => 1 + Real.exp (-x)) Filter.atTop (nhds 1) := by
    have := Filter.Tendsto.const_add (1 : ℝ) h1
    simpa using this
  have h3 := Filter.Tendsto.inv₀ h2 one_ne_zero
  have hfun : logisticFn = fun x : ℝ => (1 + Real.exp (-x))⁻¹ := by
    funext x
    rw [logisticFn, one_div]
  rw [hfun]
  simpa using h3

theorem logisticFn_tendsto_atBot :
    Filter.Tendsto logisticFn Filter.atBot (nhds 0) := by
  have h1 : Filter.Tendsto (fun x : ℝ => Real.exp (-x)) Filter.atBot Filter.atTop :=
    Real.tendsto_exp_atTop.comp Filter.tendsto_neg_atBot_atTop
  have h2 : Filter.Tendsto (fun x : ℝ => 1 + Real.exp (-x)) Filter.atBot Filter.atTop :=
    Filter.tendsto_atTop_add_const_left _ 1 h1
  have h3 : Filter.Tendsto (fun x : ℝ => (1 + Real.exp (-x))⁻¹) Filter.atBot (nhds 0) :=
    Filter.Tendsto.comp tendsto_inv_atTop_zero h2
  have hfun : logisticFn = fun x : ℝ => (1 + Real.exp (-x))⁻¹ := by
    funext x
    rw [logisticFn, one_div]
  rw [hfun]
  exact h3

theorem affine_arg_tendsto_atTop {L : ℝ} (hL : 0 < L) (b kb : ℝ) :
    Filter.Tendsto (fun k : ℝ => b + 1 / L * (k - kb)) Filter.atTop Filter.atTop := by
  apply Filter.tendsto_atTop_add_const_left
  apply Filter.Tendsto.const_mul_atTop (by positivity : (0 : ℝ) < 1 / L)
  simpa [sub_eq_add_neg] using
    Filter.tendsto_atTop_add_const_right Filter.atTop (-kb) Filter.tendsto_id

theorem affine_arg_tendsto_atBot {L : ℝ} (hL : 0 < L) (b kb : ℝ) :
    Filter.Tendsto (fun k : ℝ => b + 1 / L * (k - kb)) Filter.atBot Filter.atBot := by
  apply Filter.tendsto_atBot_add_const_left
  apply Filter.Tendsto.const_mul_atBot (by positivity : (0 : ℝ) < 1 / L)
  simpa [sub_eq_add_neg] using
    Filter.tendsto_atBot_add_const_right Filter.atBot (-kb) Filter.tendsto_id

/-- C6: for `L > 0` and `0 < Sb < 1`, `fit_sigmoid Sb L kb` is the curve
`S(k) = 1/(1 + exp(−(logit(Sb) + (k − kb)/L)))`; it satisfies
`S(kb) = Sb`, is strictly increasing, and tends to `0` at `−∞` and to `1`
at `+∞`. -/
theorem fit_sigmoid_spec (Sb L kb : ℝ) (hL : 0 < L) (h0 : 0 < Sb)
    (h1 : Sb < 1) :
    (∀ k, fit_sigmoid Sb L kb k =
        1 / (1 + Real.exp (-(Real.log (Sb / (1 - Sb)) + (k - kb) / L)))) ∧
    fit_sigmoid Sb L kb kb = Sb ∧
    StrictMono (fit_sigmoid Sb L kb) ∧
    Filter.Tendsto (fit_sigmoid Sb L kb) Filter.atBot (nhds 0) ∧
    Filter.Tendsto (fit_sigmoid Sb L kb) Filter.atTop (nhds 1) := by
  have hformula : ∀ k, fit_sigmoid Sb L kb k =
      logisticFn (Real.log (Sb / (1 - Sb)) + 1 / L * (k - kb)) := fun k => rfl
  refine ⟨?_, ?_, ?_, ?_, ?_⟩
  · intro k
    rw [hformula, logisticFn, one_div_mul_eq_div]
  · rw [hformula, sub_self, mul_zero, add_zero, logisticFn]
    have ht : 0 < Sb / (1 - Sb) := div_pos h0 (by linarith)
    rw [Real.exp_neg, Real.exp_log ht, inv_div]
    have hSb : Sb ≠ 0 := ne_of_gt h0
    have h1Sb : (1 : ℝ) - Sb ≠ 0 := by intro hz; linarith [hz]
    field_simp
  · have haff : StrictMono
        (fun k : ℝ => Real.log (Sb / (1 - Sb)) + 1 / L * (k - kb)) := by
      intro x y hxy
      have hsub : x - kb < y - kb := by linarith
      have := mul_lt_mul_of_pos_left hsub (show (0 : ℝ) < 1 / L by positivity)
      exact add_lt_add_left this _
    exact logisticFn_strictMono.comp haff
  · exact logisticFn_tendsto_atBot.comp (affine_arg_tendsto_atBot hL _ _)
  · exact logisticFn_tendsto_atTop.comp (affine_arg_tendsto_atTop hL _ _)

/-- Witness for C6 at `Sb = 1/2`, `L = 1`, `kb = 0`. -/
theorem fit_sigmoid_spec_witness :
    ((0 : ℝ) < 1 ∧ (0 : ℝ) < 1 / 2 ∧ (1 : ℝ) / 2 < 1) ∧
    fit_sigmoid (1 / 2) 1 0 0 = 1 / 2 :=
  ⟨⟨by norm_num, by norm_num, by norm_num⟩,
   (fit_sigmoid_spec (1 / 2) 1 0 (by norm_num) (by norm_num) (by norm_num)).2.1⟩

/-! ### C7: the sigmoid fit does not clamp out-of-range anchors -/

/-- C7 (amended): the fit performs no clamping of the anchor `Sb`: the
logit is applied directly, so that (in float semantics) an anchor at the
boundary `Sb = 0` (resp. `Sb = 1`) produces the finite constant curve `0`
(resp. `1`) through a non-finite logit, while an anchor outside `[0, 1]`
produces the non-finite value `nan` at every finite `k`. -/
theorem fit_sigmoid_no_clamp (l s k kb : ℝ) (hl : 0 < l) :
    (fitSigmoidFP (FP.fin 0) (FP.fin l) (FP.fin kb) (FP.fin k) = FP.fin 0) ∧
    (fitSigmoidFP (FP.fin 1) (FP.fin l) (FP.fin kb) (FP.fin k) = FP.fin 1) ∧
    ((s < 0 ∨ 1 < s) →
      fitSigmoidFP (FP.fin s) (FP.fin l) (FP.fin kb) (FP.fin k) = FP.nan ∧
      ¬ (fitSigmoidFP (FP.fin s) (FP.fin l) (FP.fin kb) (FP.fin k)).isFinite) := by
  have hlne : l ≠ 0 := ne_of_gt hl
  refine ⟨?_, ?_, ?_⟩
  · norm_num [fitSigmoidFP, FP.div, FP.sub, FP.add, FP.neg, FP.mul, FP.log,
      FP.exp, hlne]
  · norm_num [fitSigmoidFP, FP.div, FP.sub, FP.add, FP.neg, FP.mul, FP.log,
      FP.exp, hlne]
  · intro hs
    have hnan : fitSigmoidFP (FP.fin s) (FP.fin l) (FP.fin kb) (FP.fin k) = FP.nan := by
      rcases hs with hs | hs
      · have hd : (1 : ℝ) + -s ≠ 0 := by intro hz; linarith
        have hq : s / (1 + -s) < 0 := div_neg_of_neg_of_pos hs (by linarith)
        norm_num [fitSigmoidFP, FP.div, FP.sub, FP.add, FP.neg, FP.mul, FP.log,
          FP.exp, hlne, hd, lt_asymm hq, ne_of_lt hq]
      · have hd : (1 : ℝ) + -s ≠ 0 := by intro hz; linarith
        have hq : s / (1 + -s) < 0 :=
          div_neg_of_pos_of_neg (by linarith) (by linarith)
        norm_num [fitSigmoidFP, FP.div, FP.sub, FP.add, FP.neg, FP.mul, FP.log,
          FP.exp, hlne, hd, lt_asymm hq, ne_of_lt hq]
    exact ⟨hnan, by rw [hnan]; simp [FP.isFinite]⟩

/-- Witness for C7's amended statement at `l = 1`, `s = 2`, `k = kb = 0`. -/
theorem fit_sigmoid_no_clamp_witness :
    (0 : ℝ) < 1 ∧ ((2 : ℝ) < 0 ∨ (1 : ℝ) < 2) ∧
    fitSigmoidFP (FP.fin 2) (FP.fin 1) (FP.fin 0) (FP.fin 0) = FP.nan :=
  ⟨by norm_num, Or.inr (by norm_num),
   ((fit_sigmoid_no_clamp 1 2 0 0 (by norm_num)).2.2 (Or.inr (by norm_num))).1⟩

/-- C7 counterexample: at the out-of-range anchor `Sb = 2` the fit does
not clamp — the returned curve evaluates to the non-finite `nan` at
`k = 0`. -/
theorem fit_sigmoid_clamp_claim_cex :
    fitSigmoidFP (FP.fin 2) (FP.fin 1) (FP.fin 0) (FP.fin 0) = FP.nan ∧
    ¬ (fitSigmoidFP (FP.fin 2) (FP.fin 1) (FP.fin 0) (FP.fin 0)).isFinite := by
  have hq : (2 : ℝ) / (1 + -2) < 0 := by norm_num
  have hnan : fitSigmoidFP (FP.fin 2) (FP.fin 1) (FP.fin 0) (FP.fin 0) = FP.nan := by
    norm_num [fitSigmoidFP, FP.div, FP.sub, FP.add, FP.neg, FP.mul, FP.log,
      FP.exp, lt_asymm hq, ne_of_lt hq]
  exact ⟨hnan, by rw [hnan]; simp [FP.isFinite]⟩

end DapperBaseline
